import Mathlib

/-!
# Verification of `ptto115.py`

Shallow embedding of the polling/upload script `src/ptto115.py` and proofs of
the specification claims about it.

The script is a single-threaded polling loop.  We embed:

* `check_file_size_stability` — the pure decision structure of the stability
  probe (lines 38–49): probe `i` reads the file size twice (reads `2*i` and
  `2*i+1`); equal sizes return `true`, otherwise the next probe runs, up to
  `max_attempts` probes.  The sequence of observed sizes is an input.
* `TelegramNotifier.send_message` (lines 68–104): modelled as a function of the
  notifier, the message, and the outcome of the one possible HTTP request; it
  returns the boolean result together with the number of HTTP requests made.
* `main`'s polling loop (lines 125–220): state is the upload-directory
  contents, the hash cache, the attempt-count map and the transfer directory;
  the environment supplies, per file, the outcome of the stability check, of
  the size lookup, of `os.rename`, of the upload call, of `os.remove` on the
  success path and of client re-initialization.  `processFile` is one iteration of the inner `for` body,
  `runPass` one sweep of the upload directory, `runPasses` a sequence of
  sweeps.  A result of `none` models an exception propagating out of `main`
  (which terminates the process via the top-level handler).
-/

namespace Ptto115

/-! ## Stability checker (lines 38–49)

`os.path.getsize` observations are abstracted as a stream `sizes : Nat → Nat`;
iteration `attempt` of the loop reads `sizes (2*attempt)` (before the sleep)
and `sizes (2*attempt + 1)` (after it). -/

def stabilityAux (sizes : Nat → Nat) : Nat → Nat → Bool
  | 0, _ => false
  | k + 1, i =>
    if sizes (2 * i) = sizes (2 * i + 1) then true
    else stabilityAux sizes k (i + 1)

def check_file_size_stability (sizes : Nat → Nat) (max_attempts : Nat := 1000) : Bool :=
  stabilityAux sizes max_attempts 0

/-! ## Telegram notifier (lines 62–104) -/

structure TelegramNotifier where
  bot_token : String
  user_id : Int
deriving DecidableEq, Repr

/-- Outcome of the single `requests.get` call in `send_message`:
the request raises a `RequestException`, or it returns a JSON body whose
`"ok"` field is truthy, or one where it is not. -/
inductive HttpOutcome where
  | raisedReq
  | respOkTrue
  | respOkFalse
deriving DecidableEq, Repr

/-- Model of `TelegramNotifier.send_message` (lines 68–104).  Returns the boolean result
(`success_count > 0`) paired with the number of HTTP requests performed. -/
def send_message (n : TelegramNotifier) (message : String) (http : HttpOutcome) :
    Bool × Nat :=
  if n.bot_token = "" then (false, 0)
  else if message = "" then (false, 0)
  else
    match http with
    | .raisedReq => (false, 1)
    | .respOkTrue => (true, 1)
    | .respOkFalse => (false, 1)

/-! ## Claim C4 — stability check -/

theorem stabilityAux_true_iff (sizes : Nat → Nat) :
    ∀ k i, stabilityAux sizes k i = true ↔
      ∃ j, j < k ∧ sizes (2 * (i + j)) = sizes (2 * (i + j) + 1) := by
  intro k
  induction k with
  | zero => intro i; simp [stabilityAux]
  | succ k ih =>
    intro i
    by_cases h : sizes (2 * i) = sizes (2 * i + 1)
    · simp only [stabilityAux, if_pos h, true_iff]
      exact ⟨0, Nat.succ_pos k, by simpa using h⟩
    · simp only [stabilityAux, if_neg h]
      rw [ih (i + 1)]
      constructor
      · rintro ⟨j, hj, hEq⟩
        refine ⟨j + 1, by omega, ?_⟩
        have : i + 1 + j = i + (j + 1) := by omega
        rwa [this] at hEq
      · rintro ⟨j, hj, hEq⟩
        match j, hj with
        | 0, _ => exact absurd (by simpa using hEq) h
        | j + 1, hj =>
          refine ⟨j, by omega, ?_⟩
          have : i + 1 + j = i + (j + 1) := by omega
          rwa [this]

/-- C4: `check_file_size_stability` returns `true` exactly when some probe
`i < max_attempts` observes the same size before and after its wait interval
(reads `2*i` and `2*i+1`), possibly after earlier unequal probes; with no such
probe it returns `false` after `max_attempts` probes. -/
theorem check_file_size_stability_true_iff (sizes : Nat → Nat) (max_attempts : Nat) :
    check_file_size_stability sizes max_attempts = true ↔
      ∃ i, i < max_attempts ∧ sizes (2 * i) = sizes (2 * i + 1) := by
  unfold check_file_size_stability
  rw [stabilityAux_true_iff]
  simp

/-! ## Claim C8 — notifier with no token -/

/-- C8: when no bot token is configured, `send_message` returns `False` and
performs no HTTP request, for every message and every possible HTTP outcome. -/
theorem send_message_no_token (n : TelegramNotifier) (message : String)
    (http : HttpOutcome) (h : n.bot_token = "") :
    send_message n message http = (false, 0) := by
  unfold send_message
  rw [if_pos h]

/-- Witness for C8 at a concrete notifier, message and HTTP outcome. -/
theorem send_message_no_token_witness :
    send_message ⟨"", 42⟩ "hello" HttpOutcome.respOkTrue = (false, 0) :=
  send_message_no_token ⟨"", 42⟩ "hello" HttpOutcome.respOkTrue rfl

/-! ## The polling loop (`main`, lines 107–220)

### Configuration and filesystem model -/

/-- The module-level configuration the loop reads (lines 13–34 and the
`__file__` directory used for the transfer path). -/
structure Config where
  scriptDir : String
  TRY_MAX_COUNT : Nat
  TG_BOT_TOKEN : String
  TG_ADMIN_USER_ID : Int
  UPLOAD_TARGET_PID : Int
deriving DecidableEq, Repr

/-- A file in the upload tree as `os.walk` yields it: the directory `root` it
sits in and its base `name` (line 129–130). -/
structure FileId where
  dir : String
  name : String
deriving DecidableEq, Repr

/-- Model of `os.path.join` on two components. -/
def pathJoin (a b : String) : String := a ++ "/" ++ b

/-- The path `file_path = os.path.join(root, filename)` (line 130). -/
def filePathOf (f : FileId) : String := pathJoin f.dir f.name

/-- The transfer (quarantine) destination path for a base name:
`os.path.join(os.path.dirname(__file__), "transfer", filename)` (line 166).
It depends only on the base name, never on the source subdirectory. -/
def transferPathFor (cfg : Config) (filename : String) : String :=
  pathJoin (pathJoin cfg.scriptDir "transfer") filename

/-- Python truthiness of `TG_BOT_TOKEN and TG_ADMIN_USER_ID`
(lines 112, 171, 196). -/
def notifyEnabled (cfg : Config) : Bool :=
  cfg.TG_BOT_TOKEN != "" && cfg.TG_ADMIN_USER_ID != 0

/-! ### Dictionaries

The script's `cache` and `attempt_count` are Python dicts keyed by the file
path.  We embed them as association lists with first-match lookup semantics:
assignment conses a fresh binding (after erasing stale ones) and `del` erases. -/

def mapErase {α : Type} (m : List (String × α)) (k : String) : List (String × α) :=
  m.filter (fun p => p.1 != k)

def mapInsert {α : Type} (m : List (String × α)) (k : String) (v : α) :
    List (String × α) :=
  (k, v) :: mapErase m k

def mapGet {α : Type} (m : List (String × α)) (k : String) : Option α :=
  m.lookup k

/-- Remove a file from the modelled directory tree. -/
def removeFile (l : List FileId) (f : FileId) : List FileId :=
  l.filter (fun g => g != f)

/-- Overwriting move into the transfer directory (`os.rename` replaces an
existing destination of the same name). -/
def insertName (l : List String) (n : String) : List String :=
  n :: l.filter (fun m => m != n)

/-! ### Loop state and environment -/

/-- In-memory state of one iteration of the `while True` loop:
the files under `UPLOAD_DIR`, the hash `cache` (line 114), the
`attempt_count` map (line 115) and the contents of the transfer directory. -/
structure LoopState where
  fs : List FileId
  cache : List (String × String)
  attempts : List (String × Nat)
  transfer : List String
deriving DecidableEq, Repr

/-- Outcome of `check_file_size_stability(file_path)` at line 135:
the probe loop returned `True`, returned `False`, or one of its
`os.path.getsize` calls raised `FileNotFoundError` (that call site is not
wrapped in a `try`, so the exception propagates out of `main`). -/
inductive StabRes where
  | stable
  | unstable
  | raised
deriving DecidableEq, Repr

/-- Outcome of the `multipart_upload_init` call (lines 183–190): a result
containing a `"status"` field, a result without one carrying the string
`upload_result.get('filesha1', '')`, or an exception. -/
inductive UploadOutcome where
  | success
  | failure (filesha1 : String)
  | exn
deriving DecidableEq, Repr

/-- Outcome of the `os.remove(file_path)` call at line 198, reached only when
the upload result carries a `"status"` field.  The call either succeeds, or
raises with the file already gone from disk (a concurrent deletion during the
upload or notification round-trip), or raises with the file still on disk
(e.g. a permission error).  A raise lands in the generic `except` handler at
line 212, so the `del`s at lines 200–203 never run. -/
inductive RemoveRes where
  | ok
  | failGone
  | failKept
deriving DecidableEq, Repr

/-- Everything the environment decides about one file during one pass. -/
structure FileEvent where
  stab : StabRes
  /-- Whether `os.path.getsize` at line 140 succeeds (the file still exists). -/
  present : Bool
  /-- Whether `os.rename` into the transfer directory (line 168) succeeds. -/
  renameOk : Bool
  outcome : UploadOutcome
  /-- Outcome of `os.remove` at line 198 (only relevant to a success result). -/
  removeRes : RemoveRes
  /-- Whether `init_115_client()` inside the `except` handler (line 214) succeeds;
  if it raises, the exception propagates out of `main`. -/
  reinitOk : Bool
deriving DecidableEq, Repr

/-! ### Observable actions -/

/-- Externally visible effects of the loop, in program order. -/
inductive Action where
  /-- The call of `multipart_upload_init` for this file with this `filesha1`
  argument (lines 183–190). -/
  | upload (f : FileId) (filesha1 : String)
  /-- A successful `os.rename(file_path, transfer_path)` (line 168). -/
  | rename (f : FileId) (dst : String)
  /-- The call `os.remove(file_path)` (line 198). -/
  | removeLocal (path : String)
  /-- The call of `notifier.send_message` for the gave-up file (line 172). -/
  | notifyQuarantine (filename : String)
  /-- The call of `notifier.send_message` for the uploaded file (line 197). -/
  | notifySuccess (filename : String)
  /-- The call `time.sleep(SLEEP_AFTER_FILE)` (line 217). -/
  | sleepFile
  /-- The call `time.sleep(SLEEP_AFTER_ROUND)` (line 220). -/
  | sleepRound
deriving DecidableEq, Repr

/-- Attempt count the loop sees for a file: the map entry, or `0` before
initialization (lines 156–157). -/
def attemptsOf (s : LoopState) (f : FileId) : Nat :=
  (mapGet s.attempts (filePathOf f)).getD 0

/-- The `filesha1` argument passed to the upload call: `cached_sha1 or ''`
(line 188), where `cached_sha1 = cache.get(file_key)` (line 149). -/
def sha1ArgOf (s : LoopState) (f : FileId) : String :=
  match mapGet s.cache (filePathOf f) with
  | some h => if h != "" then h else ""
  | none => ""

/-- State after the `FileNotFoundError` handler at lines 142–146: the file is
gone from disk and its cache entry (only) is deleted. -/
def vanishState (f : FileId) (s : LoopState) : LoopState :=
  { s with
    fs := removeFile s.fs f,
    cache := mapErase s.cache (filePathOf f) }

/-- State after the attempt-count initialization and increment at
lines 156–160, with nothing else changed. -/
def bumpState (f : FileId) (s : LoopState) : LoopState :=
  { s with attempts := mapInsert s.attempts (filePathOf f) (attemptsOf s f + 1) }

/-- State after a successful move to the transfer directory at lines 165–176:
file gone from the upload tree, both tracking entries deleted, transfer
directory holding the base name (`os.rename` overwrites). -/
def giveUpState (f : FileId) (s : LoopState) : LoopState :=
  { fs := removeFile s.fs f,
    cache := mapErase s.cache (filePathOf f),
    attempts :=
      mapErase (mapInsert s.attempts (filePathOf f) (attemptsOf s f + 1)) (filePathOf f),
    transfer := insertName s.transfer f.name }

/-- Actions of the give-up branch: the move, then the notification when
Telegram is configured (lines 168–172). -/
def quarActs (cfg : Config) (f : FileId) : List Action :=
  [Action.rename f (transferPathFor cfg f.name)] ++
    (if notifyEnabled cfg then [Action.notifyQuarantine f.name] else [])

/-- State after the success branch at lines 193–203: file deleted from disk,
both tracking entries deleted. -/
def doneState (f : FileId) (s : LoopState) : LoopState :=
  { fs := removeFile s.fs f,
    cache := mapErase s.cache (filePathOf f),
    attempts :=
      mapErase (mapInsert s.attempts (filePathOf f) (attemptsOf s f + 1)) (filePathOf f),
    transfer := s.transfer }

/-- Actions of the success branch: upload call, notification when configured,
local deletion, then the per-file sleep (lines 183–198, 217). -/
def successActs (cfg : Config) (s : LoopState) (f : FileId) : List Action :=
  [Action.upload f (sha1ArgOf s f)] ++
    (if notifyEnabled cfg then [Action.notifySuccess f.name] else []) ++
    [Action.removeLocal (filePathOf f), Action.sleepFile]

/-- State after a success result whose `os.remove` raised with the file
already gone from disk: the file has left the upload tree, but the `del`s at
lines 200–203 were skipped, so the freshly incremented attempt-counter entry
and any cache entry survive. -/
def removeRaceState (f : FileId) (s : LoopState) : LoopState :=
  { s with
    fs := removeFile s.fs f,
    attempts := mapInsert s.attempts (filePathOf f) (attemptsOf s f + 1) }

/-- Actions of a success result whose `os.remove` raised: the upload call and
the notification happened (lines 183–197), the deletion did not, and control
reaches the per-file sleep at line 217 after the `except` handler. -/
def successFailActs (cfg : Config) (s : LoopState) (f : FileId) : List Action :=
  [Action.upload f (sha1ArgOf s f)] ++
    (if notifyEnabled cfg then [Action.notifySuccess f.name] else []) ++
    [Action.sleepFile]

/-- State after the failure branch at lines 204–210: attempt count bumped and,
when the returned `filesha1` is truthy, cached. -/
def failState (f : FileId) (s : LoopState) (hsh : String) : LoopState :=
  { s with
    cache := if hsh != "" then mapInsert s.cache (filePathOf f) hsh else s.cache,
    attempts := mapInsert s.attempts (filePathOf f) (attemptsOf s f + 1) }

/-- Actions of an attempted upload that did not succeed: the upload call and
the per-file sleep (lines 183–190, 217). -/
def uploadActs (s : LoopState) (f : FileId) : List Action :=
  [Action.upload f (sha1ArgOf s f), Action.sleepFile]

/-- One execution of the inner `for filename in files` body (lines 129–217)
for file `f` under event `ev`.  `none` models an exception escaping `main`. -/
def processFile (cfg : Config) (ev : FileEvent) (f : FileId) (s : LoopState) :
    Option (LoopState × List Action) :=
  match ev.stab with
  | .raised => none
  | .unstable => some (s, [])
  | .stable =>
    if ev.present then
      if attemptsOf s f + 1 > cfg.TRY_MAX_COUNT then
        if ev.renameOk then some (giveUpState f s, quarActs cfg f)
        else some (bumpState f s, [])
      else
        match ev.outcome with
        | .success =>
          match ev.removeRes with
          | .ok => some (doneState f s, successActs cfg s f)
          | .failGone =>
            if ev.reinitOk then some (removeRaceState f s, successFailActs cfg s f)
            else none
          | .failKept =>
            if ev.reinitOk then some (bumpState f s, successFailActs cfg s f)
            else none
        | .failure hsh => some (failState f s hsh, uploadActs s f)
        | .exn =>
          if ev.reinitOk then some (bumpState f s, uploadActs s f)
          else none
    else
      some (vanishState f s, [])

/-- Run the `for` body over a list of walked files. -/
def runFiles (cfg : Config) (env : FileId → FileEvent) :
    List FileId → LoopState → Option (LoopState × List Action)
  | [], s => some (s, [])
  | f :: rest, s =>
    match processFile cfg (env f) f s with
    | none => none
    | some (s', acts) =>
      match runFiles cfg env rest s' with
      | none => none
      | some (s'', acts') => some (s'', acts ++ acts')

/-- One iteration of the `while True` loop (lines 125–220): walk the upload
directory (the snapshot `s.fs`), process every file, then sleep
`SLEEP_AFTER_ROUND`. -/
def runPass (cfg : Config) (env : FileId → FileEvent) (s : LoopState) :
    Option (LoopState × List Action) :=
  match runFiles cfg env s.fs s with
  | none => none
  | some (s', acts) => some (s', acts ++ [Action.sleepRound])

/-- A sequence of polling passes, each with its own environment. -/
def runPasses (cfg : Config) :
    List (FileId → FileEvent) → LoopState → Option (LoopState × List Action)
  | [], s => some (s, [])
  | env :: rest, s =>
    match runPass cfg env s with
    | none => none
    | some (s', acts) =>
      match runPasses cfg rest s' with
      | none => none
      | some (s'', acts') => some (s'', acts ++ acts')

/-! ## Dictionary and list lemmas -/

theorem mapGet_nil {α : Type} (k : String) : mapGet ([] : List (String × α)) k = none :=
  rfl

theorem mapGet_mapErase {α : Type} (m : List (String × α)) (k k' : String) :
    mapGet (mapErase m k) k' = if k' = k then none else mapGet m k' := by
  induction m with
  | nil => simp [mapGet, mapErase]
  | cons p m ih =>
    obtain ⟨a, b⟩ := p
    simp only [mapGet, mapErase, List.filter_cons] at ih ⊢
    by_cases h1 : a = k
    · simp only [h1, bne_self_eq_false, Bool.false_eq_true, if_false]
      rw [ih]
      by_cases h2 : k' = k
      · simp [h2]
      · have hkk : (k' == k) = false := by simp [h2]
        simp [List.lookup, h1, hkk, if_neg h2]
    · have hb : ((a, b).1 != k) = true := by simp [h1]
      simp only [hb, if_pos]
      by_cases h3 : k' = a
      · have h2 : ¬ k' = k := by simp_all
        have ha : (k' == a) = true := by simp [h3]
        simp [List.lookup, ha, if_neg h2]
      · have ha : (k' == a) = false := by simp [h3]
        simp only [List.lookup, ha, cond_false]
        exact ih

theorem mapGet_mapInsert {α : Type} (m : List (String × α)) (k k' : String) (v : α) :
    mapGet (mapInsert m k v) k' = if k' = k then some v else mapGet m k' := by
  by_cases h : k' = k
  · simp [mapInsert, mapGet, List.lookup, h]
  · have : ¬ (k' == k) = true := by simp [h]
    simp only [mapInsert, mapGet, List.lookup, this, Bool.false_eq_true, if_false,
      cond_false, if_neg h]
    have := mapGet_mapErase m k k'
    simp only [if_neg h, mapGet] at this
    exact this

theorem mem_removeFile {l : List FileId} {f g : FileId} :
    g ∈ removeFile l f ↔ g ∈ l ∧ g ≠ f := by
  simp [removeFile, List.mem_filter]

theorem removeFile_sublist (l : List FileId) (f : FileId) :
    (removeFile l f).Sublist l :=
  List.filter_sublist l

theorem count_insertName_self (l : List String) (n : String) :
    (insertName l n).count n = 1 := by
  simp only [insertName, List.count_cons_self]
  have : (l.filter (fun m => m != n)).count n = 0 := by
    rw [List.count_eq_zero]
    intro h
    have := (List.mem_filter.mp h).2
    simp at this
  omega

/-! ## Branch equations and shape of `processFile` -/

theorem processFile_raised {cfg : Config} {ev : FileEvent} (f : FileId) (s : LoopState)
    (h : ev.stab = .raised) : processFile cfg ev f s = none := by
  simp [processFile, h]

theorem processFile_unstable {cfg : Config} {ev : FileEvent} (f : FileId) (s : LoopState)
    (h : ev.stab = .unstable) : processFile cfg ev f s = some (s, []) := by
  simp [processFile, h]

theorem processFile_vanished {cfg : Config} {ev : FileEvent} (f : FileId) (s : LoopState)
    (h1 : ev.stab = .stable) (h2 : ev.present = false) :
    processFile cfg ev f s = some (vanishState f s, []) := by
  simp [processFile, h1, h2]

theorem processFile_quarantine {cfg : Config} {ev : FileEvent} (f : FileId) (s : LoopState)
    (h1 : ev.stab = .stable) (h2 : ev.present = true)
    (hq : attemptsOf s f + 1 > cfg.TRY_MAX_COUNT) (hr : ev.renameOk = true) :
    processFile cfg ev f s = some (giveUpState f s, quarActs cfg f) := by
  simp [processFile, h1, h2, hq, hr]

theorem processFile_quarantine_renameFail {cfg : Config} {ev : FileEvent}
    (f : FileId) (s : LoopState)
    (h1 : ev.stab = .stable) (h2 : ev.present = true)
    (hq : attemptsOf s f + 1 > cfg.TRY_MAX_COUNT) (hr : ev.renameOk = false) :
    processFile cfg ev f s = some (bumpState f s, []) := by
  simp [processFile, h1, h2, hq, hr]

theorem processFile_success {cfg : Config} {ev : FileEvent} (f : FileId) (s : LoopState)
    (h1 : ev.stab = .stable) (h2 : ev.present = true)
    (hq : attemptsOf s f + 1 ≤ cfg.TRY_MAX_COUNT) (ho : ev.outcome = .success)
    (hrem : ev.removeRes = .ok) :
    processFile cfg ev f s = some (doneState f s, successActs cfg s f) := by
  simp [processFile, h1, h2, Nat.not_lt.mpr hq, ho, hrem]

theorem processFile_success_removeFailGone {cfg : Config} {ev : FileEvent}
    (f : FileId) (s : LoopState)
    (h1 : ev.stab = .stable) (h2 : ev.present = true)
    (hq : attemptsOf s f + 1 ≤ cfg.TRY_MAX_COUNT) (ho : ev.outcome = .success)
    (hrem : ev.removeRes = .failGone) (hre : ev.reinitOk = true) :
    processFile cfg ev f s = some (removeRaceState f s, successFailActs cfg s f) := by
  simp [processFile, h1, h2, Nat.not_lt.mpr hq, ho, hrem, hre]

theorem processFile_success_removeFailKept {cfg : Config} {ev : FileEvent}
    (f : FileId) (s : LoopState)
    (h1 : ev.stab = .stable) (h2 : ev.present = true)
    (hq : attemptsOf s f + 1 ≤ cfg.TRY_MAX_COUNT) (ho : ev.outcome = .success)
    (hrem : ev.removeRes = .failKept) (hre : ev.reinitOk = true) :
    processFile cfg ev f s = some (bumpState f s, successFailActs cfg s f) := by
  simp [processFile, h1, h2, Nat.not_lt.mpr hq, ho, hrem, hre]

theorem processFile_success_removeFail_crash {cfg : Config} {ev : FileEvent}
    (f : FileId) (s : LoopState)
    (h1 : ev.stab = .stable) (h2 : ev.present = true)
    (hq : attemptsOf s f + 1 ≤ cfg.TRY_MAX_COUNT) (ho : ev.outcome = .success)
    (hrem : ev.removeRes ≠ .ok) (hre : ev.reinitOk = false) :
    processFile cfg ev f s = none := by
  cases hr : ev.removeRes with
  | ok => exact absurd hr hrem
  | failGone => simp [processFile, h1, h2, Nat.not_lt.mpr hq, ho, hr, hre]
  | failKept => simp [processFile, h1, h2, Nat.not_lt.mpr hq, ho, hr, hre]

theorem processFile_failure {cfg : Config} {ev : FileEvent} (f : FileId) (s : LoopState)
    {hsh : String}
    (h1 : ev.stab = .stable) (h2 : ev.present = true)
    (hq : attemptsOf s f + 1 ≤ cfg.TRY_MAX_COUNT) (ho : ev.outcome = .failure hsh) :
    processFile cfg ev f s = some (failState f s hsh, uploadActs s f) := by
  simp [processFile, h1, h2, Nat.not_lt.mpr hq, ho]

theorem processFile_exn {cfg : Config} {ev : FileEvent} (f : FileId) (s : LoopState)
    (h1 : ev.stab = .stable) (h2 : ev.present = true)
    (hq : attemptsOf s f + 1 ≤ cfg.TRY_MAX_COUNT) (ho : ev.outcome = .exn)
    (hre : ev.reinitOk = true) :
    processFile cfg ev f s = some (bumpState f s, uploadActs s f) := by
  simp [processFile, h1, h2, Nat.not_lt.mpr hq, ho, hre]

theorem processFile_exn_crash {cfg : Config} {ev : FileEvent} (f : FileId) (s : LoopState)
    (h1 : ev.stab = .stable) (h2 : ev.present = true)
    (hq : attemptsOf s f + 1 ≤ cfg.TRY_MAX_COUNT) (ho : ev.outcome = .exn)
    (hre : ev.reinitOk = false) :
    processFile cfg ev f s = none := by
  simp [processFile, h1, h2, Nat.not_lt.mpr hq, ho, hre]

/-- Every run of the `for` body lands in one of the ten branches. -/
theorem processFile_shape (cfg : Config) (ev : FileEvent) (f : FileId) (s : LoopState) :
    processFile cfg ev f s = none ∨
    processFile cfg ev f s = some (s, []) ∨
    processFile cfg ev f s = some (vanishState f s, []) ∨
    processFile cfg ev f s = some (giveUpState f s, quarActs cfg f) ∨
    processFile cfg ev f s = some (bumpState f s, []) ∨
    processFile cfg ev f s = some (doneState f s, successActs cfg s f) ∨
    processFile cfg ev f s = some (removeRaceState f s, successFailActs cfg s f) ∨
    processFile cfg ev f s = some (bumpState f s, successFailActs cfg s f) ∨
    (∃ hsh, processFile cfg ev f s = some (failState f s hsh, uploadActs s f)) ∨
    processFile cfg ev f s = some (bumpState f s, uploadActs s f) := by
  cases h1 : ev.stab with
  | raised => exact Or.inl (processFile_raised f s h1)
  | unstable => exact Or.inr (Or.inl (processFile_unstable f s h1))
  | stable =>
    cases h2 : ev.present with
    | false => exact Or.inr (Or.inr (Or.inl (processFile_vanished f s h1 h2)))
    | true =>
      by_cases hq : attemptsOf s f + 1 > cfg.TRY_MAX_COUNT
      · cases hr : ev.renameOk with
        | true =>
          exact Or.inr (Or.inr (Or.inr (Or.inl (processFile_quarantine f s h1 h2 hq hr))))
        | false =>
          exact Or.inr (Or.inr (Or.inr (Or.inr (Or.inl
            (processFile_quarantine_renameFail f s h1 h2 hq hr)))))
      · have hq' : attemptsOf s f + 1 ≤ cfg.TRY_MAX_COUNT := Nat.not_lt.mp hq
        cases ho : ev.outcome with
        | success =>
          cases hrem : ev.removeRes with
          | ok =>
            exact Or.inr (Or.inr (Or.inr (Or.inr (Or.inr (Or.inl
              (processFile_success f s h1 h2 hq' ho hrem))))))
          | failGone =>
            cases hre : ev.reinitOk with
            | true =>
              exact Or.inr (Or.inr (Or.inr (Or.inr (Or.inr (Or.inr (Or.inl
                (processFile_success_removeFailGone f s h1 h2 hq' ho hrem hre)))))))
            | false =>
              exact Or.inl
                (processFile_success_removeFail_crash f s h1 h2 hq' ho
                  (by simp [hrem]) hre)
          | failKept =>
            cases hre : ev.reinitOk with
            | true =>
              exact Or.inr (Or.inr (Or.inr (Or.inr (Or.inr (Or.inr (Or.inr (Or.inl
                (processFile_success_removeFailKept f s h1 h2 hq' ho hrem hre))))))))
            | false =>
              exact Or.inl
                (processFile_success_removeFail_crash f s h1 h2 hq' ho
                  (by simp [hrem]) hre)
        | failure hsh =>
          exact Or.inr (Or.inr (Or.inr (Or.inr (Or.inr (Or.inr (Or.inr (Or.inr (Or.inl
            ⟨hsh, processFile_failure f s h1 h2 hq' ho⟩))))))))
        | exn =>
          cases hre : ev.reinitOk with
          | true =>
            exact Or.inr (Or.inr (Or.inr (Or.inr (Or.inr (Or.inr (Or.inr (Or.inr (Or.inr
              (processFile_exn f s h1 h2 hq' ho hre)))))))))
          | false => exact Or.inl (processFile_exn_crash f s h1 h2 hq' ho hre)

theorem not_mem_removeFile (l : List FileId) (f : FileId) : f ∉ removeFile l f := by
  simp [mem_removeFile]

theorem mem_quarActs {cfg : Config} {f : FileId} {a : Action} (h : a ∈ quarActs cfg f) :
    a = Action.rename f (transferPathFor cfg f.name) ∨
    a = Action.notifyQuarantine f.name := by
  unfold quarActs at h
  rcases List.mem_append.mp h with h | h
  · exact Or.inl (by simpa using h)
  · right
    by_cases hn : notifyEnabled cfg
    · rw [if_pos hn] at h; simpa using h
    · rw [if_neg hn] at h; simp at h

theorem mem_successActs {cfg : Config} {s : LoopState} {f : FileId} {a : Action}
    (h : a ∈ successActs cfg s f) :
    a = Action.upload f (sha1ArgOf s f) ∨ a = Action.notifySuccess f.name ∨
    a = Action.removeLocal (filePathOf f) ∨ a = Action.sleepFile := by
  unfold successActs at h
  rcases List.mem_append.mp h with h | h
  · rcases List.mem_append.mp h with h | h
    · exact Or.inl (by simpa using h)
    · right; left
      by_cases hn : notifyEnabled cfg
      · rw [if_pos hn] at h; simpa using h
      · rw [if_neg hn] at h; simp at h
  · right; right
    simpa using h

theorem mem_uploadActs {s : LoopState} {f : FileId} {a : Action}
    (h : a ∈ uploadActs s f) :
    a = Action.upload f (sha1ArgOf s f) ∨ a = Action.sleepFile := by
  simpa [uploadActs] using h

theorem mem_successFailActs {cfg : Config} {s : LoopState} {f : FileId} {a : Action}
    (h : a ∈ successFailActs cfg s f) :
    a = Action.upload f (sha1ArgOf s f) ∨ a = Action.notifySuccess f.name ∨
    a = Action.sleepFile := by
  unfold successFailActs at h
  rcases List.mem_append.mp h with h | h
  · rcases List.mem_append.mp h with h | h
    · exact Or.inl (by simpa using h)
    · right; left
      by_cases hn : notifyEnabled cfg
      · rw [if_pos hn] at h; simpa using h
      · rw [if_neg hn] at h; simp at h
  · right; right
    simpa using h

theorem processFile_fs_sublist {cfg : Config} {ev : FileEvent} {f : FileId}
    {s s' : LoopState} {acts : List Action}
    (h : processFile cfg ev f s = some (s', acts)) : s'.fs.Sublist s.fs := by
  rcases processFile_shape cfg ev f s with
      h0 | h0 | h0 | h0 | h0 | h0 | h0 | h0 | ⟨hsh, h0⟩ | h0 <;>
    rw [h0] at h <;>
    simp only [Option.some.injEq, Prod.mk.injEq, reduceCtorEq] at h <;>
    obtain ⟨rfl, rfl⟩ := h <;>
    first
      | exact List.Sublist.refl _
      | exact removeFile_sublist _ _

theorem processFile_mem_fs {cfg : Config} {ev : FileEvent} {f g : FileId}
    {s s' : LoopState} {acts : List Action}
    (h : processFile cfg ev f s = some (s', acts)) (hg : g ∈ s.fs) (hne : g ≠ f) :
    g ∈ s'.fs := by
  rcases processFile_shape cfg ev f s with
      h0 | h0 | h0 | h0 | h0 | h0 | h0 | h0 | ⟨hsh, h0⟩ | h0 <;>
    rw [h0] at h <;>
    simp only [Option.some.injEq, Prod.mk.injEq, reduceCtorEq] at h <;>
    obtain ⟨rfl, rfl⟩ := h <;>
    first
      | exact hg
      | exact mem_removeFile.mpr ⟨hg, hne⟩

theorem processFile_upload_owner {cfg : Config} {ev : FileEvent} {f g : FileId}
    {s s' : LoopState} {acts : List Action} {sh : String}
    (h : processFile cfg ev f s = some (s', acts))
    (hmem : Action.upload g sh ∈ acts) : g = f := by
  rcases processFile_shape cfg ev f s with
      h0 | h0 | h0 | h0 | h0 | h0 | h0 | h0 | ⟨hsh, h0⟩ | h0 <;>
    rw [h0] at h <;>
    simp only [Option.some.injEq, Prod.mk.injEq, reduceCtorEq] at h <;>
    obtain ⟨rfl, rfl⟩ := h
  · exact absurd hmem (by simp)
  · exact absurd hmem (by simp)
  · rcases mem_quarActs hmem with h' | h' <;> simp at h'
  · exact absurd hmem (by simp)
  · rcases mem_successActs hmem with h' | h' | h' | h'
    · injection h' with h1 h2
    · simp at h'
    · simp at h'
    · simp at h'
  · rcases mem_successFailActs hmem with h' | h' | h'
    · injection h' with h1 h2
    · simp at h'
    · simp at h'
  · rcases mem_successFailActs hmem with h' | h' | h'
    · injection h' with h1 h2
    · simp at h'
    · simp at h'
  · rcases mem_uploadActs hmem with h' | h'
    · injection h' with h1 h2
    · simp at h'
  · rcases mem_uploadActs hmem with h' | h'
    · injection h' with h1 h2
    · simp at h'

theorem processFile_rename_owner {cfg : Config} {ev : FileEvent} {f g : FileId}
    {s s' : LoopState} {acts : List Action} {d : String}
    (h : processFile cfg ev f s = some (s', acts))
    (hmem : Action.rename g d ∈ acts) : g = f ∧ d = transferPathFor cfg f.name := by
  rcases processFile_shape cfg ev f s with
      h0 | h0 | h0 | h0 | h0 | h0 | h0 | h0 | ⟨hsh, h0⟩ | h0 <;>
    rw [h0] at h <;>
    simp only [Option.some.injEq, Prod.mk.injEq, reduceCtorEq] at h <;>
    obtain ⟨rfl, rfl⟩ := h
  · exact absurd hmem (by simp)
  · exact absurd hmem (by simp)
  · rcases mem_quarActs hmem with h' | h'
    · injection h' with h1 h2; exact ⟨h1, h2⟩
    · simp at h'
  · exact absurd hmem (by simp)
  · rcases mem_successActs hmem with h' | h' | h' | h' <;> simp at h'
  · rcases mem_successFailActs hmem with h' | h' | h' <;> simp at h'
  · rcases mem_successFailActs hmem with h' | h' | h' <;> simp at h'
  · rcases mem_uploadActs hmem with h' | h' <;> simp at h'
  · rcases mem_uploadActs hmem with h' | h' <;> simp at h'

theorem processFile_preserve {cfg : Config} {ev : FileEvent} {f : FileId}
    {s s' : LoopState} {acts : List Action} {p : String}
    (h : processFile cfg ev f s = some (s', acts)) (hp : p ≠ filePathOf f) :
    mapGet s'.cache p = mapGet s.cache p ∧ mapGet s'.attempts p = mapGet s.attempts p := by
  rcases processFile_shape cfg ev f s with
      h0 | h0 | h0 | h0 | h0 | h0 | h0 | h0 | ⟨hsh, h0⟩ | h0 <;>
    rw [h0] at h <;>
    simp only [Option.some.injEq, Prod.mk.injEq, reduceCtorEq] at h <;>
    obtain ⟨rfl, rfl⟩ := h <;>
    constructor <;>
    simp [vanishState, giveUpState, bumpState, doneState, failState, removeRaceState,
      mapGet_mapErase, mapGet_mapInsert, hp]
  split <;> simp [mapGet_mapInsert, hp]

/-! ## Lemmas about whole sweeps -/

theorem runFiles_append (cfg : Config) (env : FileId → FileEvent)
    (l₁ l₂ : List FileId) (s : LoopState) :
    runFiles cfg env (l₁ ++ l₂) s =
      match runFiles cfg env l₁ s with
      | none => none
      | some (s₁, a₁) =>
        match runFiles cfg env l₂ s₁ with
        | none => none
        | some (s₂, a₂) => some (s₂, a₁ ++ a₂) := by
  induction l₁ generalizing s with
  | nil =>
    cases h : runFiles cfg env l₂ s with
    | none => simp [runFiles, h]
    | some pr => obtain ⟨s₂, a₂⟩ := pr; simp [runFiles, h]
  | cons f rest ih =>
    simp only [List.cons_append, runFiles]
    cases hp : processFile cfg (env f) f s with
    | none => rfl
    | some pr =>
      obtain ⟨s', a⟩ := pr
      dsimp only
      simp only [List.append_eq]
      rw [ih]
      cases h1 : runFiles cfg env rest s' with
      | none => rfl
      | some pr1 =>
        obtain ⟨s₁, a₁⟩ := pr1
        cases h2 : runFiles cfg env l₂ s₁ with
        | none => simp [h2]
        | some pr2 =>
          obtain ⟨s₂, a₂⟩ := pr2
          simp [h2, List.append_assoc]

theorem runFiles_fs_sublist {cfg : Config} {env : FileId → FileEvent}
    {l : List FileId} {s s' : LoopState} {acts : List Action}
    (h : runFiles cfg env l s = some (s', acts)) : s'.fs.Sublist s.fs := by
  induction l generalizing s acts with
  | nil =>
    simp only [runFiles, Option.some.injEq, Prod.mk.injEq] at h
    obtain ⟨rfl, rfl⟩ := h
    exact List.Sublist.refl _
  | cons f rest ih =>
    simp only [runFiles] at h
    cases hp : processFile cfg (env f) f s with
    | none => rw [hp] at h; exact absurd h (by simp)
    | some pr =>
      obtain ⟨s₁, a₁⟩ := pr
      rw [hp] at h
      dsimp only at h
      cases h1 : runFiles cfg env rest s₁ with
      | none => rw [h1] at h; exact absurd h (by simp)
      | some pr1 =>
        obtain ⟨s₂, a₂⟩ := pr1
        rw [h1] at h
        dsimp only at h
        simp only [Option.some.injEq, Prod.mk.injEq] at h
        obtain ⟨rfl, rfl⟩ := h
        exact (ih h1).trans (processFile_fs_sublist hp)

theorem runFiles_mem_fs {cfg : Config} {env : FileId → FileEvent}
    {l : List FileId} {s s' : LoopState} {acts : List Action} {g : FileId}
    (h : runFiles cfg env l s = some (s', acts)) (hg : g ∈ s.fs) (hgl : g ∉ l) :
    g ∈ s'.fs := by
  induction l generalizing s acts with
  | nil =>
    simp only [runFiles, Option.some.injEq, Prod.mk.injEq] at h
    obtain ⟨rfl, rfl⟩ := h
    exact hg
  | cons f rest ih =>
    simp only [runFiles] at h
    cases hp : processFile cfg (env f) f s with
    | none => rw [hp] at h; exact absurd h (by simp)
    | some pr =>
      obtain ⟨s₁, a₁⟩ := pr
      rw [hp] at h
      dsimp only at h
      cases h1 : runFiles cfg env rest s₁ with
      | none => rw [h1] at h; exact absurd h (by simp)
      | some pr1 =>
        obtain ⟨s₂, a₂⟩ := pr1
        rw [h1] at h
        dsimp only at h
        simp only [Option.some.injEq, Prod.mk.injEq] at h
        obtain ⟨rfl, rfl⟩ := h
        have hne : g ≠ f := fun hEq => hgl (hEq ▸ List.mem_cons_self f rest)
        have hrest : g ∉ rest := fun hm => hgl (List.mem_cons_of_mem f hm)
        exact ih h1 (processFile_mem_fs hp hg hne) hrest

theorem runFiles_upload_owner {cfg : Config} {env : FileId → FileEvent}
    {l : List FileId} {s s' : LoopState} {acts : List Action} {g : FileId} {sh : String}
    (h : runFiles cfg env l s = some (s', acts))
    (hmem : Action.upload g sh ∈ acts) : g ∈ l := by
  induction l generalizing s acts with
  | nil =>
    simp only [runFiles, Option.some.injEq, Prod.mk.injEq] at h
    obtain ⟨rfl, rfl⟩ := h
    exact absurd hmem (by simp)
  | cons f rest ih =>
    simp only [runFiles] at h
    cases hp : processFile cfg (env f) f s with
    | none => rw [hp] at h; exact absurd h (by simp)
    | some pr =>
      obtain ⟨s₁, a₁⟩ := pr
      rw [hp] at h
      dsimp only at h
      cases h1 : runFiles cfg env rest s₁ with
      | none => rw [h1] at h; exact absurd h (by simp)
      | some pr1 =>
        obtain ⟨s₂, a₂⟩ := pr1
        rw [h1] at h
        dsimp only at h
        simp only [Option.some.injEq, Prod.mk.injEq] at h
        obtain ⟨rfl, rfl⟩ := h
        rcases List.mem_append.mp hmem with hm | hm
        · exact (processFile_upload_owner hp hm) ▸ List.mem_cons_self f rest
        · exact List.mem_cons_of_mem f (ih h1 hm)

theorem runFiles_rename_owner {cfg : Config} {env : FileId → FileEvent}
    {l : List FileId} {s s' : LoopState} {acts : List Action} {g : FileId} {d : String}
    (h : runFiles cfg env l s = some (s', acts))
    (hmem : Action.rename g d ∈ acts) : g ∈ l := by
  induction l generalizing s acts with
  | nil =>
    simp only [runFiles, Option.some.injEq, Prod.mk.injEq] at h
    obtain ⟨rfl, rfl⟩ := h
    exact absurd hmem (by simp)
  | cons f rest ih =>
    simp only [runFiles] at h
    cases hp : processFile cfg (env f) f s with
    | none => rw [hp] at h; exact absurd h (by simp)
    | some pr =>
      obtain ⟨s₁, a₁⟩ := pr
      rw [hp] at h
      dsimp only at h
      cases h1 : runFiles cfg env rest s₁ with
      | none => rw [h1] at h; exact absurd h (by simp)
      | some pr1 =>
        obtain ⟨s₂, a₂⟩ := pr1
        rw [h1] at h
        dsimp only at h
        simp only [Option.some.injEq, Prod.mk.injEq] at h
        obtain ⟨rfl, rfl⟩ := h
        rcases List.mem_append.mp hmem with hm | hm
        · exact (processFile_rename_owner hp hm).1 ▸ List.mem_cons_self f rest
        · exact List.mem_cons_of_mem f (ih h1 hm)

theorem runFiles_preserve {cfg : Config} {env : FileId → FileEvent}
    {l : List FileId} {s s' : LoopState} {acts : List Action} {p : String}
    (h : runFiles cfg env l s = some (s', acts))
    (hl : ∀ f ∈ l, filePathOf f ≠ p) :
    mapGet s'.cache p = mapGet s.cache p ∧
    mapGet s'.attempts p = mapGet s.attempts p := by
  induction l generalizing s acts with
  | nil =>
    simp only [runFiles, Option.some.injEq, Prod.mk.injEq] at h
    obtain ⟨rfl, rfl⟩ := h
    exact ⟨rfl, rfl⟩
  | cons f rest ih =>
    simp only [runFiles] at h
    cases hp : processFile cfg (env f) f s with
    | none => rw [hp] at h; exact absurd h (by simp)
    | some pr =>
      obtain ⟨s₁, a₁⟩ := pr
      rw [hp] at h
      dsimp only at h
      cases h1 : runFiles cfg env rest s₁ with
      | none => rw [h1] at h; exact absurd h (by simp)
      | some pr1 =>
        obtain ⟨s₂, a₂⟩ := pr1
        rw [h1] at h
        dsimp only at h
        simp only [Option.some.injEq, Prod.mk.injEq] at h
        obtain ⟨rfl, rfl⟩ := h
        have hpne : p ≠ filePathOf f := fun hEq =>
          hl f (List.mem_cons_self f rest) hEq.symm
        have hstep := processFile_preserve hp hpne
        have hrest := ih h1 (fun g hg => hl g (List.mem_cons_of_mem f hg))
        exact ⟨hrest.1.trans hstep.1, hrest.2.trans hstep.2⟩

theorem runPass_inv {cfg : Config} {env : FileId → FileEvent}
    {s s₁ : LoopState} {acts : List Action}
    (h : runPass cfg env s = some (s₁, acts)) :
    ∃ acts0, runFiles cfg env s.fs s = some (s₁, acts0) ∧
      acts = acts0 ++ [Action.sleepRound] := by
  unfold runPass at h
  cases h0 : runFiles cfg env s.fs s with
  | none => rw [h0] at h; exact absurd h (by simp)
  | some pr =>
    obtain ⟨s', acts0⟩ := pr
    rw [h0] at h
    dsimp only at h
    simp only [Option.some.injEq, Prod.mk.injEq] at h
    obtain ⟨rfl, rfl⟩ := h
    exact ⟨acts0, rfl, rfl⟩

theorem runPass_intro {cfg : Config} {env : FileId → FileEvent}
    {s s₁ : LoopState} {acts0 : List Action}
    (h : runFiles cfg env s.fs s = some (s₁, acts0)) :
    runPass cfg env s = some (s₁, acts0 ++ [Action.sleepRound]) := by
  unfold runPass
  rw [h]

theorem runPass_fs_sublist {cfg : Config} {env : FileId → FileEvent}
    {s s₁ : LoopState} {acts : List Action}
    (h : runPass cfg env s = some (s₁, acts)) : s₁.fs.Sublist s.fs := by
  obtain ⟨acts0, h0, rfl⟩ := runPass_inv h
  exact runFiles_fs_sublist h0

theorem runPass_upload_owner {cfg : Config} {env : FileId → FileEvent}
    {s s₁ : LoopState} {acts : List Action} {g : FileId} {sh : String}
    (h : runPass cfg env s = some (s₁, acts))
    (hm : Action.upload g sh ∈ acts) : g ∈ s.fs := by
  obtain ⟨acts0, h0, rfl⟩ := runPass_inv h
  rcases List.mem_append.mp hm with hm | hm
  · exact runFiles_upload_owner h0 hm
  · simp at hm

theorem runPass_rename_owner {cfg : Config} {env : FileId → FileEvent}
    {s s₁ : LoopState} {acts : List Action} {g : FileId} {d : String}
    (h : runPass cfg env s = some (s₁, acts))
    (hm : Action.rename g d ∈ acts) : g ∈ s.fs := by
  obtain ⟨acts0, h0, rfl⟩ := runPass_inv h
  rcases List.mem_append.mp hm with hm | hm
  · exact runFiles_rename_owner h0 hm
  · simp at hm

theorem runPasses_fs_sublist {cfg : Config} {envs : List (FileId → FileEvent)}
    {s s' : LoopState} {acts : List Action}
    (h : runPasses cfg envs s = some (s', acts)) : s'.fs.Sublist s.fs := by
  induction envs generalizing s acts with
  | nil =>
    simp only [runPasses, Option.some.injEq, Prod.mk.injEq] at h
    obtain ⟨rfl, rfl⟩ := h
    exact List.Sublist.refl _
  | cons env rest ih =>
    simp only [runPasses] at h
    cases hp : runPass cfg env s with
    | none => rw [hp] at h; exact absurd h (by simp)
    | some pr =>
      obtain ⟨s₁, a₁⟩ := pr
      rw [hp] at h
      dsimp only at h
      cases h1 : runPasses cfg rest s₁ with
      | none => rw [h1] at h; exact absurd h (by simp)
      | some pr1 =>
        obtain ⟨s₂, a₂⟩ := pr1
        rw [h1] at h
        dsimp only at h
        simp only [Option.some.injEq, Prod.mk.injEq] at h
        obtain ⟨rfl, rfl⟩ := h
        exact (ih h1).trans (runPass_fs_sublist hp)

theorem runPasses_upload_owner {cfg : Config} {envs : List (FileId → FileEvent)}
    {s s' : LoopState} {acts : List Action} {g : FileId} {sh : String}
    (h : runPasses cfg envs s = some (s', acts))
    (hm : Action.upload g sh ∈ acts) : g ∈ s.fs := by
  induction envs generalizing s acts with
  | nil =>
    simp only [runPasses, Option.some.injEq, Prod.mk.injEq] at h
    obtain ⟨rfl, rfl⟩ := h
    exact absurd hm (by simp)
  | cons env rest ih =>
    simp only [runPasses] at h
    cases hp : runPass cfg env s with
    | none => rw [hp] at h; exact absurd h (by simp)
    | some pr =>
      obtain ⟨s₁, a₁⟩ := pr
      rw [hp] at h
      dsimp only at h
      cases h1 : runPasses cfg rest s₁ with
      | none => rw [h1] at h; exact absurd h (by simp)
      | some pr1 =>
        obtain ⟨s₂, a₂⟩ := pr1
        rw [h1] at h
        dsimp only at h
        simp only [Option.some.injEq, Prod.mk.injEq] at h
        obtain ⟨rfl, rfl⟩ := h
        rcases List.mem_append.mp hm with hm | hm
        · exact runPass_upload_owner hp hm
        · exact (runPass_fs_sublist hp).subset (ih h1 hm)

theorem runPasses_rename_owner {cfg : Config} {envs : List (FileId → FileEvent)}
    {s s' : LoopState} {acts : List Action} {g : FileId} {d : String}
    (h : runPasses cfg envs s = some (s', acts))
    (hm : Action.rename g d ∈ acts) : g ∈ s.fs := by
  induction envs generalizing s acts with
  | nil =>
    simp only [runPasses, Option.some.injEq, Prod.mk.injEq] at h
    obtain ⟨rfl, rfl⟩ := h
    exact absurd hm (by simp)
  | cons env rest ih =>
    simp only [runPasses] at h
    cases hp : runPass cfg env s with
    | none => rw [hp] at h; exact absurd h (by simp)
    | some pr =>
      obtain ⟨s₁, a₁⟩ := pr
      rw [hp] at h
      dsimp only at h
      cases h1 : runPasses cfg rest s₁ with
      | none => rw [h1] at h; exact absurd h (by simp)
      | some pr1 =>
        obtain ⟨s₂, a₂⟩ := pr1
        rw [h1] at h
        dsimp only at h
        simp only [Option.some.injEq, Prod.mk.injEq] at h
        obtain ⟨rfl, rfl⟩ := h
        rcases List.mem_append.mp hm with hm | hm
        · exact runPass_rename_owner hp hm
        · exact (runPass_fs_sublist hp).subset (ih h1 hm)

/-- Decomposition of one sweep around a distinguished file `f` of the walk
snapshot: the files before it, its own step, and the files after it. -/
theorem runPass_split {cfg : Config} {env : FileId → FileEvent}
    {s s₁ : LoopState} {acts : List Action} {f : FileId}
    (hmem : f ∈ s.fs) (hnd : s.fs.Nodup)
    (hrun : runPass cfg env s = some (s₁, acts)) :
    ∃ l₁ l₂ sA sB aA aB aC,
      s.fs = l₁ ++ f :: l₂ ∧ f ∉ l₁ ∧ f ∉ l₂ ∧
      runFiles cfg env l₁ s = some (sA, aA) ∧
      processFile cfg (env f) f sA = some (sB, aB) ∧
      runFiles cfg env l₂ sB = some (s₁, aC) ∧
      acts = aA ++ aB ++ aC ++ [Action.sleepRound] := by
  obtain ⟨acts0, h0, rfl⟩ := runPass_inv hrun
  obtain ⟨l₁, l₂, hfs⟩ := List.append_of_mem hmem
  rw [hfs] at h0 hnd
  have hsplit := List.nodup_append.mp hnd
  have hf1 : f ∉ l₁ := fun hf => hsplit.2.2 hf (List.mem_cons_self f l₂)
  have hf2 : f ∉ l₂ := (List.nodup_cons.mp hsplit.2.1).1
  rw [runFiles_append] at h0
  cases hA : runFiles cfg env l₁ s with
  | none => rw [hA] at h0; exact absurd h0 (by simp)
  | some prA =>
    obtain ⟨sA, aA⟩ := prA
    rw [hA] at h0
    dsimp only at h0
    simp only [runFiles] at h0
    cases hB : processFile cfg (env f) f sA with
    | none => rw [hB] at h0; exact absurd h0 (by simp)
    | some prB =>
      obtain ⟨sB, aB⟩ := prB
      rw [hB] at h0
      dsimp only at h0
      cases hC : runFiles cfg env l₂ sB with
      | none => rw [hC] at h0; exact absurd h0 (by simp)
      | some prC =>
        obtain ⟨sC, aC⟩ := prC
        rw [hC] at h0
        dsimp only at h0
        simp only [Option.some.injEq, Prod.mk.injEq] at h0
        obtain ⟨rfl, rfl⟩ := h0
        exact ⟨l₁, l₂, sA, sB, aA, aB, aC, hfs, hf1, hf2, hA, hB, hC,
          by simp [List.append_assoc]⟩

theorem runFiles_preserve_file {cfg : Config} {env : FileId → FileEvent}
    {l : List FileId} {s s' : LoopState} {acts : List Action} {f : FileId}
    (h : runFiles cfg env l s = some (s', acts))
    (hl : ∀ g ∈ l, filePathOf g ≠ filePathOf f) :
    attemptsOf s' f = attemptsOf s f ∧ sha1ArgOf s' f = sha1ArgOf s f ∧
    mapGet s'.cache (filePathOf f) = mapGet s.cache (filePathOf f) ∧
    mapGet s'.attempts (filePathOf f) = mapGet s.attempts (filePathOf f) := by
  have hp := runFiles_preserve h hl
  refine ⟨?_, ?_, hp.1, hp.2⟩
  · unfold attemptsOf; rw [hp.2]
  · unfold sha1ArgOf; rw [hp.1]

theorem paths_ne_of_uniq {s : LoopState} {f : FileId} {l : List FileId}
    (huniq : ∀ g ∈ s.fs, filePathOf g = filePathOf f → g = f)
    (hsub : ∀ g ∈ l, g ∈ s.fs) (hnotin : f ∉ l) :
    ∀ g ∈ l, filePathOf g ≠ filePathOf f := by
  intro g hg hEq
  have hgf := huniq g (hsub g hg) hEq
  subst hgf
  exact hnotin hg

/-! ## Claim C2 — a success result clears the file and its tracking -/

/-- C2 amended: if the upload call for a stable, present file `f` (within its
attempt budget) returns a result containing a `"status"` field AND the
`os.remove` call at line 198 completes without raising, then after that whole
polling pass the local file is gone (`os.remove` ran and `f` is no longer in
the upload tree) and neither the hash cache nor the attempt-counter map has an
entry for its path.  (When `os.remove` raises, the generic handler at line 212
catches it and the `del`s never run — see the counterexample.) -/
theorem success_clears_tracking {cfg : Config} {env : FileId → FileEvent}
    {s s₁ : LoopState} {acts : List Action} {f : FileId}
    (hmem : f ∈ s.fs) (hnd : s.fs.Nodup)
    (huniq : ∀ g ∈ s.fs, filePathOf g = filePathOf f → g = f)
    (hstab : (env f).stab = .stable) (hpres : (env f).present = true)
    (hout : (env f).outcome = .success) (hrem : (env f).removeRes = .ok)
    (hcnt : attemptsOf s f + 1 ≤ cfg.TRY_MAX_COUNT)
    (hrun : runPass cfg env s = some (s₁, acts)) :
    f ∉ s₁.fs ∧ Action.removeLocal (filePathOf f) ∈ acts ∧
    mapGet s₁.cache (filePathOf f) = none ∧
    mapGet s₁.attempts (filePathOf f) = none := by
  obtain ⟨l₁, l₂, sA, sB, aA, aB, aC, hfs, hf1, hf2, hA, hB, hC, hacts⟩ :=
    runPass_split hmem hnd hrun
  have hl₁ : ∀ g ∈ l₁, filePathOf g ≠ filePathOf f :=
    paths_ne_of_uniq huniq
      (fun g hg => by rw [hfs]; exact List.mem_append_left _ hg) hf1
  have hl₂ : ∀ g ∈ l₂, filePathOf g ≠ filePathOf f :=
    paths_ne_of_uniq huniq
      (fun g hg => by
        rw [hfs]; exact List.mem_append_right _ (List.mem_cons_of_mem f hg)) hf2
  have hpreA := runFiles_preserve_file hA hl₁
  have hcntA : attemptsOf sA f + 1 ≤ cfg.TRY_MAX_COUNT := by
    rw [hpreA.1]; exact hcnt
  rw [processFile_success f sA hstab hpres hcntA hout hrem] at hB
  simp only [Option.some.injEq, Prod.mk.injEq] at hB
  obtain ⟨rfl, rfl⟩ := hB
  have hpreC := runFiles_preserve_file hC hl₂
  refine ⟨?_, ?_, ?_, ?_⟩
  · intro hin
    have hfB : f ∉ (doneState f sA).fs := by
      simp [doneState, mem_removeFile]
    exact hfB ((runFiles_fs_sublist hC).subset hin)
  · rw [hacts]
    have : Action.removeLocal (filePathOf f) ∈ successActs cfg sA f := by
      simp [successActs]
    simp only [List.mem_append]
    exact Or.inl (Or.inl (Or.inr this))
  · rw [hpreC.2.2.1]
    simp [doneState, mapGet_mapErase]
  · rw [hpreC.2.2.2]
    simp [doneState, mapGet_mapErase]

def w2cfg : Config := ⟨"app", 3, "tok", 7, 0⟩

def w2f : FileId := ⟨"up", "w2.bin"⟩

def w2env : FileId → FileEvent := fun _ => ⟨.stable, true, true, .success, .ok, true⟩

def w2s : LoopState := ⟨[w2f], [("up/w2.bin", "cafe")], [("up/w2.bin", 1)], []⟩

def w2s1 : LoopState := ⟨[], [], [], []⟩

def w2acts : List Action :=
  [Action.upload w2f "cafe", Action.notifySuccess "w2.bin",
   Action.removeLocal "up/w2.bin", Action.sleepFile, Action.sleepRound]

/-- Witness for the amended C2 at a concrete one-file run. -/
theorem success_clears_tracking_witness :
    w2f ∉ w2s1.fs ∧ Action.removeLocal (filePathOf w2f) ∈ w2acts ∧
    mapGet w2s1.cache (filePathOf w2f) = none ∧
    mapGet w2s1.attempts (filePathOf w2f) = none :=
  @success_clears_tracking w2cfg w2env w2s w2s1 w2acts w2f (by decide) (by decide)
    (by decide) rfl rfl rfl rfl (by decide) rfl

def c2cfg : Config := ⟨"app", 5, "", 0, 0⟩

def c2f : FileId := ⟨"up", "e.bin"⟩

def c2s : LoopState := ⟨[c2f], [], [], []⟩

def c2envRemFail : FileId → FileEvent :=
  fun _ => ⟨.stable, true, true, .success, .failKept, true⟩

def c2s1 : LoopState := ⟨[c2f], [], [("up/e.bin", 1)], []⟩

def c2acts : List Action :=
  [Action.upload c2f "", Action.sleepFile, Action.sleepRound]

/-- C2 counterexample: the upload call returns a success result, but
`os.remove` at line 198 raises with the file still on disk; the generic
`except` at line 212 swallows the exception, so the pass completes with the
file still in the upload tree and its freshly incremented attempt-counter
entry intact — neither the file nor its tracking is cleared. -/
theorem success_remove_raises_cex :
    (c2envRemFail c2f).outcome = .success ∧
    runPass c2cfg c2envRemFail c2s = some (c2s1, c2acts) ∧
    c2f ∈ c2s1.fs ∧
    mapGet c2s1.attempts (filePathOf c2f) = some 1 :=
  ⟨rfl, rfl, by decide, rfl⟩

/-! ## Claim C6 — upload exceptions -/

def c6cfg : Config := ⟨"app", 5, "", 0, 0⟩

def c6f : FileId := ⟨"up", "a.bin"⟩

def c6envCrash : FileId → FileEvent := fun _ => ⟨.stable, true, true, .exn, .ok, false⟩

def c6s : LoopState := ⟨[c6f], [], [], []⟩

/-- C6 counterexample: the upload call raises for a stable, present file, but
re-initializing the client (line 214) raises as well; the new exception is not
caught, so the polling pass — and with it the process — terminates (`none`).
Upload exceptions are therefore not "never fatal" as claimed. -/
theorem upload_exn_crash_cex : runPass c6cfg c6envCrash c6s = none := rfl

/-- C6 amended: an exception from the upload call is caught and the file is
retried later — it stays in the upload tree with its cache untouched and its
attempt counter incremented, and the per-file processing completes — provided
the client re-initialization inside the handler succeeds. -/
theorem upload_exn_retry {cfg : Config} {ev : FileEvent} {f : FileId} {s : LoopState}
    (hstab : ev.stab = .stable) (hpres : ev.present = true)
    (hcnt : attemptsOf s f + 1 ≤ cfg.TRY_MAX_COUNT)
    (hout : ev.outcome = .exn) (hre : ev.reinitOk = true) :
    processFile cfg ev f s =
      some (bumpState f s, [Action.upload f (sha1ArgOf s f), Action.sleepFile]) ∧
    (bumpState f s).fs = s.fs ∧
    (bumpState f s).cache = s.cache ∧
    mapGet (bumpState f s).attempts (filePathOf f) = some (attemptsOf s f + 1) := by
  refine ⟨processFile_exn f s hstab hpres hcnt hout hre, rfl, rfl, ?_⟩
  simp [bumpState, mapGet_mapInsert]

def c6envOk : FileId → FileEvent := fun _ => ⟨.stable, true, true, .exn, .ok, true⟩

/-- Witness for the amended C6 at a concrete input. -/
theorem upload_exn_retry_witness :
    processFile c6cfg (c6envOk c6f) c6f c6s =
      some (bumpState c6f c6s,
        [Action.upload c6f (sha1ArgOf c6s c6f), Action.sleepFile]) ∧
    (bumpState c6f c6s).fs = c6s.fs ∧
    (bumpState c6f c6s).cache = c6s.cache ∧
    mapGet (bumpState c6f c6s).attempts (filePathOf c6f) =
      some (attemptsOf c6s c6f + 1) :=
  upload_exn_retry rfl rfl (by decide) rfl rfl

/-! ## Claim C7 — files disappearing mid-poll -/

def c7cfg : Config := ⟨"app", 9, "", 0, 0⟩

def c7f : FileId := ⟨"up", "b.bin"⟩

def c7s : LoopState := ⟨[c7f], [("up/b.bin", "aa")], [("up/b.bin", 3)], []⟩

def c7envVanish : FileId → FileEvent := fun _ => ⟨.stable, false, true, .success, .ok, true⟩

def c7envRaised : FileId → FileEvent := fun _ => ⟨.raised, true, true, .success, .ok, true⟩

/-- C7 counterexample, in two parts.  (1) A file that disappears between the
stability check and the size retrieval is skipped, but its tracking state is
NOT fully dropped: the attempt-counter entry (value 3 here) survives the pass —
only the cache entry is deleted.  (2) A file that disappears while the
stability probe itself is reading sizes makes `os.path.getsize` raise outside
any `try`, so the exception escapes the polling loop (`none`), which
contradicts "tolerated without raising out of the polling loop". -/
theorem vanish_tracking_cex :
    (runPass c7cfg c7envVanish c7s).map
        (fun r => mapGet r.1.attempts (filePathOf c7f)) = some (some 3) ∧
    runPass c7cfg c7envRaised c7s = none := ⟨rfl, rfl⟩

/-- C7 amended: a file that disappears between the stability check passing and
the size retrieval (the `FileNotFoundError` handler at lines 142–146) is
tolerated: the sweep simply continues with the remaining files, the file's
cache entry is dropped, but its attempt-counter entry is retained unchanged. -/
theorem vanish_tolerated {cfg : Config} {env : FileId → FileEvent}
    {f : FileId} {rest : List FileId} {s : LoopState}
    (hstab : (env f).stab = .stable) (hpres : (env f).present = false) :
    runFiles cfg env (f :: rest) s = runFiles cfg env rest (vanishState f s) ∧
    mapGet (vanishState f s).cache (filePathOf f) = none ∧
    (vanishState f s).attempts = s.attempts := by
  refine ⟨?_, ?_, rfl⟩
  · simp only [runFiles, processFile_vanished f s hstab hpres]
    cases h : runFiles cfg env rest (vanishState f s) with
    | none => rfl
    | some pr => obtain ⟨s₂, a₂⟩ := pr; simp
  · simp [vanishState, mapGet_mapErase]

/-- Witness for the amended C7 at a concrete input. -/
theorem vanish_tolerated_witness :
    runFiles c7cfg c7envVanish [c7f] c7s =
      runFiles c7cfg c7envVanish [] (vanishState c7f c7s) ∧
    mapGet (vanishState c7f c7s).cache (filePathOf c7f) = none ∧
    (vanishState c7f c7s).attempts = c7s.attempts :=
  vanish_tolerated rfl rfl

/-! ## Claim C3 — the attempt counter -/

def c3cfg : Config := ⟨"app", 9, "", 0, 0⟩

def c3f : FileId := ⟨"up", "c.bin"⟩

def c3s : LoopState := ⟨[c3f], [], [], []⟩

def c3env : FileId → FileEvent := fun _ => ⟨.unstable, true, true, .success, .ok, true⟩

/-- C3 counterexample: a polling pass over a present file that fails the
stability check completes with the loop state unchanged — in particular the
file's attempt counter is NOT incremented (it stays absent, i.e. 0, instead of
becoming 1), although the file neither succeeded nor was quarantined. -/
theorem attempts_not_incremented_cex :
    runPass c3cfg c3env c3s = some (c3s, [Action.sleepRound]) ∧
    mapGet c3s.attempts (filePathOf c3f) = none := ⟨rfl, rfl⟩

/-- C3 amended: the counter starts at 0 (a missing entry reads as 0) and is
incremented by exactly one on each polling pass in which the file passes the
stability check and its size is retrieved; on such a pass the entry is instead
removed exactly on a success result whose `os.remove` completes, or on a
successful quarantine move; on a pass where the file is unstable or has
vanished the attempt map is unchanged. -/
theorem attempts_step {cfg : Config} {ev : FileEvent} {f : FileId}
    {s s' : LoopState} {acts : List Action}
    (hrun : processFile cfg ev f s = some (s', acts)) :
    (ev.stab = .stable → ev.present = true →
      ((attemptsOf s f + 1 > cfg.TRY_MAX_COUNT ∧ ev.renameOk = true) ∨
          (attemptsOf s f + 1 ≤ cfg.TRY_MAX_COUNT ∧ ev.outcome = .success ∧
            ev.removeRes = .ok) →
        mapGet s'.attempts (filePathOf f) = none) ∧
      ((attemptsOf s f + 1 > cfg.TRY_MAX_COUNT ∧ ev.renameOk = false) ∨
          (attemptsOf s f + 1 ≤ cfg.TRY_MAX_COUNT ∧
            (ev.outcome ≠ .success ∨ ev.removeRes ≠ .ok)) →
        mapGet s'.attempts (filePathOf f) = some (attemptsOf s f + 1))) ∧
    (ev.stab = .unstable ∨ ev.present = false → s'.attempts = s.attempts) := by
  constructor
  · intro h1 h2
    constructor
    · rintro (⟨hq, hr⟩ | ⟨hq, ho, hrm⟩)
      · rw [processFile_quarantine f s h1 h2 hq hr] at hrun
        simp only [Option.some.injEq, Prod.mk.injEq] at hrun
        obtain ⟨rfl, rfl⟩ := hrun
        simp [giveUpState, mapGet_mapErase]
      · rw [processFile_success f s h1 h2 hq ho hrm] at hrun
        simp only [Option.some.injEq, Prod.mk.injEq] at hrun
        obtain ⟨rfl, rfl⟩ := hrun
        simp [doneState, mapGet_mapErase]
    · rintro (⟨hq, hr⟩ | ⟨hq, ho⟩)
      · rw [processFile_quarantine_renameFail f s h1 h2 hq hr] at hrun
        simp only [Option.some.injEq, Prod.mk.injEq] at hrun
        obtain ⟨rfl, rfl⟩ := hrun
        simp [bumpState, mapGet_mapInsert]
      · cases ho2 : ev.outcome with
        | success =>
          have hrem : ev.removeRes ≠ .ok := by
            rcases ho with ho | ho
            · exact absurd ho2 ho
            · exact ho
          cases hrm : ev.removeRes with
          | ok => exact absurd hrm hrem
          | failGone =>
            cases hre : ev.reinitOk with
            | true =>
              rw [processFile_success_removeFailGone f s h1 h2 hq ho2 hrm hre] at hrun
              simp only [Option.some.injEq, Prod.mk.injEq] at hrun
              obtain ⟨rfl, rfl⟩ := hrun
              simp [removeRaceState, mapGet_mapInsert]
            | false =>
              rw [processFile_success_removeFail_crash f s h1 h2 hq ho2
                (by simp [hrm]) hre] at hrun
              exact absurd hrun (by simp)
          | failKept =>
            cases hre : ev.reinitOk with
            | true =>
              rw [processFile_success_removeFailKept f s h1 h2 hq ho2 hrm hre] at hrun
              simp only [Option.some.injEq, Prod.mk.injEq] at hrun
              obtain ⟨rfl, rfl⟩ := hrun
              simp [bumpState, mapGet_mapInsert]
            | false =>
              rw [processFile_success_removeFail_crash f s h1 h2 hq ho2
                (by simp [hrm]) hre] at hrun
              exact absurd hrun (by simp)
        | failure hsh =>
          rw [processFile_failure f s h1 h2 hq ho2] at hrun
          simp only [Option.some.injEq, Prod.mk.injEq] at hrun
          obtain ⟨rfl, rfl⟩ := hrun
          simp [failState, mapGet_mapInsert]
        | exn =>
          cases hre : ev.reinitOk with
          | true =>
            rw [processFile_exn f s h1 h2 hq ho2 hre] at hrun
            simp only [Option.some.injEq, Prod.mk.injEq] at hrun
            obtain ⟨rfl, rfl⟩ := hrun
            simp [bumpState, mapGet_mapInsert]
          | false =>
            rw [processFile_exn_crash f s h1 h2 hq ho2 hre] at hrun
            exact absurd hrun (by simp)
  · intro hcase
    cases h1 : ev.stab with
    | raised =>
      rw [processFile_raised f s h1] at hrun
      exact absurd hrun (by simp)
    | unstable =>
      rw [processFile_unstable f s h1] at hrun
      simp only [Option.some.injEq, Prod.mk.injEq] at hrun
      obtain ⟨rfl, rfl⟩ := hrun
      rfl
    | stable =>
      rcases hcase with hcase | hcase
      · rw [h1] at hcase; exact absurd hcase (by simp)
      · rw [processFile_vanished f s h1 hcase] at hrun
        simp only [Option.some.injEq, Prod.mk.injEq] at hrun
        obtain ⟨rfl, rfl⟩ := hrun
        rfl

def c3wEnv : FileId → FileEvent := fun _ => ⟨.stable, true, true, .failure "dd", .ok, true⟩

/-- Witness for the amended C3 at a concrete input (a failed upload attempt
incrementing the counter from 0 to 1). -/
theorem attempts_step_witness :
    ((c3wEnv c3f).stab = .stable → (c3wEnv c3f).present = true →
      ((attemptsOf c3s c3f + 1 > c3cfg.TRY_MAX_COUNT ∧ (c3wEnv c3f).renameOk = true) ∨
          (attemptsOf c3s c3f + 1 ≤ c3cfg.TRY_MAX_COUNT ∧
            (c3wEnv c3f).outcome = .success ∧ (c3wEnv c3f).removeRes = .ok) →
        mapGet (failState c3f c3s "dd").attempts (filePathOf c3f) = none) ∧
      ((attemptsOf c3s c3f + 1 > c3cfg.TRY_MAX_COUNT ∧ (c3wEnv c3f).renameOk = false) ∨
          (attemptsOf c3s c3f + 1 ≤ c3cfg.TRY_MAX_COUNT ∧
            ((c3wEnv c3f).outcome ≠ .success ∨ (c3wEnv c3f).removeRes ≠ .ok)) →
        mapGet (failState c3f c3s "dd").attempts (filePathOf c3f) =
          some (attemptsOf c3s c3f + 1))) ∧
    ((c3wEnv c3f).stab = .unstable ∨ (c3wEnv c3f).present = false →
      (failState c3f c3s "dd").attempts = c3s.attempts) :=
  attempts_step rfl

/-! ## Claim C9 — the sleeps -/

theorem sleepFile_not_mem_quarActs (cfg : Config) (f : FileId) :
    Action.sleepFile ∉ quarActs cfg f := by
  intro h
  rcases mem_quarActs h with h | h <;> simp at h

def c9cfg : Config := ⟨"app", 9, "", 0, 0⟩

def c9f : FileId := ⟨"up", "d.bin"⟩

def c9s : LoopState := ⟨[c9f], [], [], []⟩

def c9env : FileId → FileEvent := fun _ => ⟨.unstable, true, true, .success, .ok, true⟩

/-- C9 counterexample: a polling pass that considers one file which fails the
stability check emits only the round sleep — the `continue` at line 136 skips
the per-file `time.sleep(SLEEP_AFTER_FILE)` at line 217, so no fixed delay
follows that file's processing. -/
theorem sleep_after_file_cex :
    runPass c9cfg c9env c9s = some (c9s, [Action.sleepRound]) ∧
    Action.sleepFile ∉ ([Action.sleepRound] : List Action) := ⟨rfl, by decide⟩

/-- C9 amended: the per-file delay follows exactly those files whose processing
reaches the upload call (stable, still present, within the attempt budget);
files skipped by an unstable size, by disappearance, or by the give-up branch
get no per-file delay; and every completed sweep ends with the round delay. -/
theorem sleep_characterization {cfg : Config} {env : FileId → FileEvent}
    {ev : FileEvent} {f : FileId} {s s' s₁ : LoopState} {acts acts₁ : List Action}
    (hfile : processFile cfg ev f s = some (s', acts))
    (hpass : runPass cfg env s = some (s₁, acts₁)) :
    (Action.sleepFile ∈ acts ↔
      (ev.stab = .stable ∧ ev.present = true ∧
        attemptsOf s f + 1 ≤ cfg.TRY_MAX_COUNT)) ∧
    acts₁.getLast? = some Action.sleepRound := by
  constructor
  · cases h1 : ev.stab with
    | raised =>
      rw [processFile_raised f s h1] at hfile
      exact absurd hfile (by simp)
    | unstable =>
      rw [processFile_unstable f s h1] at hfile
      simp only [Option.some.injEq, Prod.mk.injEq] at hfile
      obtain ⟨rfl, rfl⟩ := hfile
      exact iff_of_false (by simp) (by simp [h1])
    | stable =>
      cases h2 : ev.present with
      | false =>
        rw [processFile_vanished f s h1 h2] at hfile
        simp only [Option.some.injEq, Prod.mk.injEq] at hfile
        obtain ⟨rfl, rfl⟩ := hfile
        exact iff_of_false (by simp) (by simp [h2])
      | true =>
        by_cases hq : attemptsOf s f + 1 > cfg.TRY_MAX_COUNT
        · have hq' : ¬ attemptsOf s f + 1 ≤ cfg.TRY_MAX_COUNT := by omega
          cases hr : ev.renameOk with
          | true =>
            rw [processFile_quarantine f s h1 h2 hq hr] at hfile
            simp only [Option.some.injEq, Prod.mk.injEq] at hfile
            obtain ⟨rfl, rfl⟩ := hfile
            exact iff_of_false (sleepFile_not_mem_quarActs cfg f) (by simp [hq'])
          | false =>
            rw [processFile_quarantine_renameFail f s h1 h2 hq hr] at hfile
            simp only [Option.some.injEq, Prod.mk.injEq] at hfile
            obtain ⟨rfl, rfl⟩ := hfile
            exact iff_of_false (by simp) (by simp [hq'])
        · have hq' : attemptsOf s f + 1 ≤ cfg.TRY_MAX_COUNT := Nat.not_lt.mp hq
          cases ho : ev.outcome with
          | success =>
            cases hrm : ev.removeRes with
            | ok =>
              rw [processFile_success f s h1 h2 hq' ho hrm] at hfile
              simp only [Option.some.injEq, Prod.mk.injEq] at hfile
              obtain ⟨rfl, rfl⟩ := hfile
              exact iff_of_true (by simp [successActs]) ⟨rfl, rfl, hq'⟩
            | failGone =>
              cases hre : ev.reinitOk with
              | true =>
                rw [processFile_success_removeFailGone f s h1 h2 hq' ho hrm hre] at hfile
                simp only [Option.some.injEq, Prod.mk.injEq] at hfile
                obtain ⟨rfl, rfl⟩ := hfile
                exact iff_of_true (by simp [successFailActs]) ⟨rfl, rfl, hq'⟩
              | false =>
                rw [processFile_success_removeFail_crash f s h1 h2 hq' ho
                  (by simp [hrm]) hre] at hfile
                exact absurd hfile (by simp)
            | failKept =>
              cases hre : ev.reinitOk with
              | true =>
                rw [processFile_success_removeFailKept f s h1 h2 hq' ho hrm hre] at hfile
                simp only [Option.some.injEq, Prod.mk.injEq] at hfile
                obtain ⟨rfl, rfl⟩ := hfile
                exact iff_of_true (by simp [successFailActs]) ⟨rfl, rfl, hq'⟩
              | false =>
                rw [processFile_success_removeFail_crash f s h1 h2 hq' ho
                  (by simp [hrm]) hre] at hfile
                exact absurd hfile (by simp)
          | failure hsh =>
            rw [processFile_failure f s h1 h2 hq' ho] at hfile
            simp only [Option.some.injEq, Prod.mk.injEq] at hfile
            obtain ⟨rfl, rfl⟩ := hfile
            exact iff_of_true (by simp [uploadActs]) ⟨rfl, rfl, hq'⟩
          | exn =>
            cases hre : ev.reinitOk with
            | true =>
              rw [processFile_exn f s h1 h2 hq' ho hre] at hfile
              simp only [Option.some.injEq, Prod.mk.injEq] at hfile
              obtain ⟨rfl, rfl⟩ := hfile
              exact iff_of_true (by simp [uploadActs]) ⟨rfl, rfl, hq'⟩
            | false =>
              rw [processFile_exn_crash f s h1 h2 hq' ho hre] at hfile
              exact absurd hfile (by simp)
  · obtain ⟨acts0, h0, rfl⟩ := runPass_inv hpass
    simp

def c9wEnv : FileId → FileEvent := fun _ => ⟨.stable, true, true, .failure "ee", .ok, true⟩

/-- Witness for the amended C9 at a concrete failed-upload pass. -/
theorem sleep_characterization_witness :
    (Action.sleepFile ∈ uploadActs c9s c9f ↔
      ((c9wEnv c9f).stab = .stable ∧ (c9wEnv c9f).present = true ∧
        attemptsOf c9s c9f + 1 ≤ c9cfg.TRY_MAX_COUNT)) ∧
    (uploadActs c9s c9f ++ [Action.sleepRound]).getLast? = some Action.sleepRound :=
  @sleep_characterization c9cfg c9wEnv (c9wEnv c9f) c9f c9s
    (failState c9f c9s "ee") _ (uploadActs c9s c9f)
    (uploadActs c9s c9f ++ [Action.sleepRound]) rfl rfl

/-! ## Claim C10 — the quarantine destination path -/

/-- C10: every successful quarantine move of a file `f` targets
`transfer/<basename>`, independent of the subdirectory `f` came from; two files
with equal base names are therefore moved to the identical destination, and
moving both leaves a single entry of that name in the transfer directory (the
second `os.rename` overwrites the first). -/
theorem quarantine_dest_basename_only {cfg : Config} {ev₁ ev₂ : FileEvent}
    {f g : FileId} {s₁ s₂ sf sg : LoopState} {af ag : List Action} {d₁ d₂ : String}
    (t : List String)
    (h₁ : processFile cfg ev₁ f s₁ = some (sf, af)) (hm₁ : Action.rename f d₁ ∈ af)
    (h₂ : processFile cfg ev₂ g s₂ = some (sg, ag)) (hm₂ : Action.rename g d₂ ∈ ag)
    (hname : f.name = g.name) :
    d₁ = d₂ ∧ d₁ = transferPathFor cfg f.name ∧
    (insertName (insertName t f.name) g.name).count g.name = 1 := by
  have r₁ := (processFile_rename_owner h₁ hm₁).2
  have r₂ := (processFile_rename_owner h₂ hm₂).2
  refine ⟨?_, r₁, ?_⟩
  · rw [r₁, r₂, hname]
  · rw [hname]
    exact count_insertName_self _ _

def c10cfg : Config := ⟨"app", 1, "", 0, 0⟩

def c10fA : FileId := ⟨"u/s1", "x.bin"⟩

def c10fB : FileId := ⟨"u/s2", "x.bin"⟩

def c10ev : FileEvent := ⟨.stable, true, true, .success, .ok, true⟩

def c10sA : LoopState := ⟨[c10fA], [], [("u/s1/x.bin", 1)], []⟩

def c10sB : LoopState := ⟨[c10fB], [], [("u/s2/x.bin", 1)], []⟩

/-- Witness for C10: the same file name quarantined from two different
subdirectories lands on the same transfer path. -/
theorem quarantine_dest_basename_only_witness :
    transferPathFor c10cfg "x.bin" = transferPathFor c10cfg "x.bin" ∧
    transferPathFor c10cfg "x.bin" = transferPathFor c10cfg c10fA.name ∧
    (insertName (insertName [] c10fA.name) c10fB.name).count c10fB.name = 1 :=
  @quarantine_dest_basename_only c10cfg c10ev c10ev c10fA c10fB c10sA c10sB
    (giveUpState c10fA c10sA) (giveUpState c10fB c10sB)
    (quarActs c10cfg c10fA) (quarActs c10cfg c10fB)
    (transferPathFor c10cfg "x.bin") (transferPathFor c10cfg "x.bin") []
    rfl (by decide) rfl (by decide) rfl

/-! ## Claim C5 — failure hashes are cached and reused -/

/-- C5: if the upload call for a stable, present file `f` (with attempt budget
to spare) returns a failure result carrying a non-empty `filesha1`, then after
that pass the hash is stored in the cache for `f`'s path, and the upload call
of the next polling pass for that path passes the cached hash — not the empty
string — to `multipart_upload_init`. -/
theorem failure_hash_cached_then_used {cfg : Config} {env₁ env₂ : FileId → FileEvent}
    {s s₁ s₂ : LoopState} {acts₁ acts₂ : List Action} {f : FileId} {hsh : String}
    (hmem : f ∈ s.fs) (hnd : s.fs.Nodup)
    (huniq : ∀ g ∈ s.fs, filePathOf g = filePathOf f → g = f)
    (hstab₁ : (env₁ f).stab = .stable) (hpres₁ : (env₁ f).present = true)
    (hout₁ : (env₁ f).outcome = .failure hsh) (hh : hsh ≠ "")
    (hcnt : attemptsOf s f + 2 ≤ cfg.TRY_MAX_COUNT)
    (hrun₁ : runPass cfg env₁ s = some (s₁, acts₁))
    (hstab₂ : (env₂ f).stab = .stable) (hpres₂ : (env₂ f).present = true)
    (hrun₂ : runPass cfg env₂ s₁ = some (s₂, acts₂)) :
    mapGet s₁.cache (filePathOf f) = some hsh ∧
    Action.upload f hsh ∈ acts₂ := by
  obtain ⟨l₁, l₂, sA, sB, aA, aB, aC, hfs, hf1, hf2, hA, hB, hC, hacts⟩ :=
    runPass_split hmem hnd hrun₁
  have hl₁ : ∀ g ∈ l₁, filePathOf g ≠ filePathOf f :=
    paths_ne_of_uniq huniq
      (fun g hg => by rw [hfs]; exact List.mem_append_left _ hg) hf1
  have hl₂ : ∀ g ∈ l₂, filePathOf g ≠ filePathOf f :=
    paths_ne_of_uniq huniq
      (fun g hg => by
        rw [hfs]; exact List.mem_append_right _ (List.mem_cons_of_mem f hg)) hf2
  have hpreA := runFiles_preserve_file hA hl₁
  have hcntA : attemptsOf sA f + 1 ≤ cfg.TRY_MAX_COUNT := by
    rw [hpreA.1]; omega
  rw [processFile_failure f sA hstab₁ hpres₁ hcntA hout₁] at hB
  simp only [Option.some.injEq, Prod.mk.injEq] at hB
  obtain ⟨rfl, rfl⟩ := hB
  have hpreC := runFiles_preserve_file hC hl₂
  have hbne : (hsh != "") = true := bne_iff_ne.mpr hh
  have hcache₁ : mapGet s₁.cache (filePathOf f) = some hsh := by
    rw [hpreC.2.2.1]
    simp [failState, hbne, mapGet_mapInsert]
  have hatt₁ : attemptsOf s₁ f = attemptsOf s f + 1 := by
    rw [hpreC.1]
    simp [attemptsOf, failState, mapGet_mapInsert, hpreA.2.2.2]
  refine ⟨hcache₁, ?_⟩
  have hmem₁ : f ∈ s₁.fs := by
    have hfA : f ∈ sA.fs := runFiles_mem_fs hA hmem hf1
    have hfB : f ∈ (failState f sA hsh).fs := hfA
    exact runFiles_mem_fs hC hfB hf2
  have hnd₁ : s₁.fs.Nodup := (runPass_fs_sublist hrun₁).nodup hnd
  have huniq₁ : ∀ g ∈ s₁.fs, filePathOf g = filePathOf f → g = f := fun g hg hEq =>
    huniq g ((runPass_fs_sublist hrun₁).subset hg) hEq
  obtain ⟨l₁', l₂', sA', sB', aA', aB', aC', hfs', hf1', hf2', hA', hB', hC', hacts'⟩ :=
    runPass_split hmem₁ hnd₁ hrun₂
  have hl₁' : ∀ g ∈ l₁', filePathOf g ≠ filePathOf f :=
    paths_ne_of_uniq huniq₁
      (fun g hg => by rw [hfs']; exact List.mem_append_left _ hg) hf1'
  have hpreA' := runFiles_preserve_file hA' hl₁'
  have hcntA' : attemptsOf sA' f + 1 ≤ cfg.TRY_MAX_COUNT := by
    rw [hpreA'.1, hatt₁]; omega
  have hsha : sha1ArgOf sA' f = hsh := by
    unfold sha1ArgOf
    rw [hpreA'.2.2.1, hcache₁]
    simp [hbne]
  have hupload : Action.upload f hsh ∈ aB' := by
    cases ho : (env₂ f).outcome with
    | success =>
      cases hrm : (env₂ f).removeRes with
      | ok =>
        rw [processFile_success f sA' hstab₂ hpres₂ hcntA' ho hrm] at hB'
        simp only [Option.some.injEq, Prod.mk.injEq] at hB'
        obtain ⟨rfl, rfl⟩ := hB'
        rw [← hsha]
        simp [successActs]
      | failGone =>
        cases hre : (env₂ f).reinitOk with
        | true =>
          rw [processFile_success_removeFailGone f sA' hstab₂ hpres₂ hcntA'
            ho hrm hre] at hB'
          simp only [Option.some.injEq, Prod.mk.injEq] at hB'
          obtain ⟨rfl, rfl⟩ := hB'
          rw [← hsha]
          simp [successFailActs]
        | false =>
          rw [processFile_success_removeFail_crash f sA' hstab₂ hpres₂ hcntA'
            ho (by simp [hrm]) hre] at hB'
          exact absurd hB' (by simp)
      | failKept =>
        cases hre : (env₂ f).reinitOk with
        | true =>
          rw [processFile_success_removeFailKept f sA' hstab₂ hpres₂ hcntA'
            ho hrm hre] at hB'
          simp only [Option.some.injEq, Prod.mk.injEq] at hB'
          obtain ⟨rfl, rfl⟩ := hB'
          rw [← hsha]
          simp [successFailActs]
        | false =>
          rw [processFile_success_removeFail_crash f sA' hstab₂ hpres₂ hcntA'
            ho (by simp [hrm]) hre] at hB'
          exact absurd hB' (by simp)
    | failure hsh2 =>
      rw [processFile_failure f sA' hstab₂ hpres₂ hcntA' ho] at hB'
      simp only [Option.some.injEq, Prod.mk.injEq] at hB'
      obtain ⟨rfl, rfl⟩ := hB'
      rw [← hsha]
      simp [uploadActs]
    | exn =>
      cases hre : (env₂ f).reinitOk with
      | true =>
        rw [processFile_exn f sA' hstab₂ hpres₂ hcntA' ho hre] at hB'
        simp only [Option.some.injEq, Prod.mk.injEq] at hB'
        obtain ⟨rfl, rfl⟩ := hB'
        rw [← hsha]
        simp [uploadActs]
      | false =>
        rw [processFile_exn_crash f sA' hstab₂ hpres₂ hcntA' ho hre] at hB'
        exact absurd hB' (by simp)
  rw [hacts']
  simp only [List.mem_append]
  exact Or.inl (Or.inl (Or.inr hupload))

def c5cfg : Config := ⟨"app", 4, "", 0, 0⟩

def c5f : FileId := ⟨"up", "w5.bin"⟩

def c5env : FileId → FileEvent := fun _ => ⟨.stable, true, true, .failure "abc", .ok, true⟩

def c5s : LoopState := ⟨[c5f], [], [], []⟩

def c5s1 : LoopState := ⟨[c5f], [("up/w5.bin", "abc")], [("up/w5.bin", 1)], []⟩

def c5s2 : LoopState := ⟨[c5f], [("up/w5.bin", "abc")], [("up/w5.bin", 2)], []⟩

def c5acts1 : List Action :=
  [Action.upload c5f "", Action.sleepFile, Action.sleepRound]

def c5acts2 : List Action :=
  [Action.upload c5f "abc", Action.sleepFile, Action.sleepRound]

/-- Witness for C5 at a concrete two-pass run: the first attempt uploads with
the empty hash and fails carrying `"abc"`; the second uploads with `"abc"`. -/
theorem failure_hash_cached_then_used_witness :
    mapGet c5s1.cache (filePathOf c5f) = some "abc" ∧
    Action.upload c5f "abc" ∈ c5acts2 :=
  @failure_hash_cached_then_used c5cfg c5env c5env c5s c5s1 c5s2 c5acts1 c5acts2
    c5f "abc" (by decide) (by decide) (by decide) rfl rfl rfl (by decide)
    (by decide) rfl rfl rfl rfl

/-! ## Claim C1 — the give-up (quarantine) policy -/

/-- Recognizer for a successful move of file `f` to the transfer directory. -/
def isRenameOf (f : FileId) : Action → Bool
  | .rename g _ => g == f
  | _ => false

theorem countP_renameOf_zero {cfg : Config} {env : FileId → FileEvent}
    {l : List FileId} {s s' : LoopState} {acts : List Action} {f : FileId}
    (h : runFiles cfg env l s = some (s', acts)) (hf : f ∉ l) :
    acts.countP (isRenameOf f) = 0 := by
  rw [List.countP_eq_zero]
  intro a ha hcnt
  cases a with
  | rename g d =>
    have hg : g = f := by simpa [isRenameOf] using hcnt
    subst hg
    exact hf (runFiles_rename_owner h ha)
  | upload g sh => simp [isRenameOf] at hcnt
  | removeLocal p => simp [isRenameOf] at hcnt
  | notifyQuarantine n => simp [isRenameOf] at hcnt
  | notifySuccess n => simp [isRenameOf] at hcnt
  | sleepFile => simp [isRenameOf] at hcnt
  | sleepRound => simp [isRenameOf] at hcnt

theorem countP_renameOf_quarActs {cfg : Config} {f : FileId}
    (hconf : notifyEnabled cfg = true) :
    (quarActs cfg f).countP (isRenameOf f) = 1 := by
  simp [quarActs, hconf, List.countP_cons, isRenameOf]

/-- C1: once a stable, present file's attempt counter has reached
`TRY_MAX_COUNT` (so the incremented count exceeds it) and the move succeeds,
the pass moves the file exactly once to `transfer/<basename>`, deletes both its
cache and attempt-counter entries, sends the Telegram notification (the
configuration being present), attempts no upload for it in this pass, and in
every later sequence of polling passes the file is never uploaded or moved
again — its path is gone from the upload tree. -/
theorem quarantine_exactly_once {cfg : Config} {env : FileId → FileEvent}
    (envs : List (FileId → FileEvent)) {s s₁ : LoopState} {acts : List Action}
    {f : FileId}
    (hmem : f ∈ s.fs) (hnd : s.fs.Nodup)
    (huniq : ∀ g ∈ s.fs, filePathOf g = filePathOf f → g = f)
    (hcnt : cfg.TRY_MAX_COUNT ≤ attemptsOf s f)
    (hstab : (env f).stab = .stable) (hpres : (env f).present = true)
    (hren : (env f).renameOk = true)
    (hconf : notifyEnabled cfg = true)
    (hrun : runPass cfg env s = some (s₁, acts)) :
    Action.rename f (transferPathFor cfg f.name) ∈ acts ∧
    acts.countP (isRenameOf f) = 1 ∧
    Action.notifyQuarantine f.name ∈ acts ∧
    mapGet s₁.cache (filePathOf f) = none ∧
    mapGet s₁.attempts (filePathOf f) = none ∧
    f ∉ s₁.fs ∧
    (∀ sh, Action.upload f sh ∉ acts) ∧
    (∀ s₂ acts₂, runPasses cfg envs s₁ = some (s₂, acts₂) →
      acts₂.countP (isRenameOf f) = 0 ∧
      ∀ g sh, Action.upload g sh ∈ acts₂ → filePathOf g ≠ filePathOf f) := by
  obtain ⟨l₁, l₂, sA, sB, aA, aB, aC, hfs, hf1, hf2, hA, hB, hC, hacts⟩ :=
    runPass_split hmem hnd hrun
  have hl₁ : ∀ g ∈ l₁, filePathOf g ≠ filePathOf f :=
    paths_ne_of_uniq huniq
      (fun g hg => by rw [hfs]; exact List.mem_append_left _ hg) hf1
  have hl₂ : ∀ g ∈ l₂, filePathOf g ≠ filePathOf f :=
    paths_ne_of_uniq huniq
      (fun g hg => by
        rw [hfs]; exact List.mem_append_right _ (List.mem_cons_of_mem f hg)) hf2
  have hpreA := runFiles_preserve_file hA hl₁
  have hq : attemptsOf sA f + 1 > cfg.TRY_MAX_COUNT := by
    rw [hpreA.1]; omega
  rw [processFile_quarantine f sA hstab hpres hq hren] at hB
  simp only [Option.some.injEq, Prod.mk.injEq] at hB
  obtain ⟨rfl, rfl⟩ := hB
  have hpreC := runFiles_preserve_file hC hl₂
  have hnotinB : f ∉ (giveUpState f sA).fs := by
    simp [giveUpState, mem_removeFile]
  have hnotin₁ : f ∉ s₁.fs := fun hin => hnotinB ((runFiles_fs_sublist hC).subset hin)
  have hrenMem : Action.rename f (transferPathFor cfg f.name) ∈ acts := by
    rw [hacts]
    simp only [List.mem_append]
    refine Or.inl (Or.inl (Or.inr ?_))
    simp [quarActs]
  refine ⟨hrenMem, ?_, ?_, ?_, ?_, hnotin₁, ?_, ?_⟩
  · rw [hacts]
    simp only [List.countP_append]
    rw [countP_renameOf_zero hA hf1, countP_renameOf_zero hC hf2,
      countP_renameOf_quarActs hconf]
    simp [List.countP_cons, isRenameOf]
  · rw [hacts]
    simp only [List.mem_append]
    refine Or.inl (Or.inl (Or.inr ?_))
    simp [quarActs, hconf]
  · rw [hpreC.2.2.1]
    simp [giveUpState, mapGet_mapErase]
  · rw [hpreC.2.2.2]
    simp [giveUpState, mapGet_mapErase]
  · intro sh hin
    rw [hacts] at hin
    simp only [List.mem_append] at hin
    rcases hin with ((hin | hin) | hin) | hin
    · exact hf1 (runFiles_upload_owner hA hin)
    · rcases mem_quarActs hin with h' | h' <;> simp at h'
    · exact hf2 (runFiles_upload_owner hC hin)
    · simp at hin
  · intro s₂ acts₂ hP
    constructor
    · rw [List.countP_eq_zero]
      intro a ha hcnt2
      cases a with
      | rename g d =>
        have hg : g = f := by simpa [isRenameOf] using hcnt2
        subst hg
        exact hnotin₁ (runPasses_rename_owner hP ha)
      | upload g sh => simp [isRenameOf] at hcnt2
      | removeLocal p => simp [isRenameOf] at hcnt2
      | notifyQuarantine n => simp [isRenameOf] at hcnt2
      | notifySuccess n => simp [isRenameOf] at hcnt2
      | sleepFile => simp [isRenameOf] at hcnt2
      | sleepRound => simp [isRenameOf] at hcnt2
    · intro g sh hg hEq
      have hg₁ : g ∈ s₁.fs := runPasses_upload_owner hP hg
      have hgf : g = f := huniq g ((runPass_fs_sublist hrun).subset hg₁) hEq
      subst hgf
      exact hnotin₁ hg₁

def c1cfg : Config := ⟨"app", 2, "tt", 5, 0⟩

def c1f : FileId := ⟨"up", "w1.bin"⟩

def c1env : FileId → FileEvent := fun _ => ⟨.stable, true, true, .success, .ok, true⟩

def c1s : LoopState := ⟨[c1f], [("up/w1.bin", "hh")], [("up/w1.bin", 2)], []⟩

def c1s1 : LoopState := ⟨[], [], [], ["w1.bin"]⟩

def c1acts : List Action :=
  [Action.rename c1f "app/transfer/w1.bin", Action.notifyQuarantine "w1.bin",
   Action.sleepRound]

/-- Witness for C1 at a concrete run: a file with its attempt counter at the
maximum is quarantined once and fully untracked. -/
theorem quarantine_exactly_once_witness :
    Action.rename c1f (transferPathFor c1cfg c1f.name) ∈ c1acts ∧
    c1acts.countP (isRenameOf c1f) = 1 ∧
    Action.notifyQuarantine c1f.name ∈ c1acts ∧
    mapGet c1s1.cache (filePathOf c1f) = none ∧
    mapGet c1s1.attempts (filePathOf c1f) = none ∧
    c1f ∉ c1s1.fs ∧
    (∀ sh, Action.upload c1f sh ∉ c1acts) ∧
    (∀ s₂ acts₂, runPasses c1cfg [] c1s1 = some (s₂, acts₂) →
      acts₂.countP (isRenameOf c1f) = 0 ∧
      ∀ g sh, Action.upload g sh ∈ acts₂ → filePathOf g ≠ filePathOf c1f) :=
  @quarantine_exactly_once c1cfg c1env [] c1s c1s1 c1acts c1f (by decide)
    (by decide) (by decide) (by decide) rfl rfl rfl (by decide) rfl

end Ptto115
